import Mathlib

/-!
Verification development for the EDDA pi-client audio pipeline
(`src/pi-client/edda`): a shallow embedding in Lean 4 of the speech
detector (`edda/speech/detector.py`), the acoustic echo canceller and its
reference ring buffer (`edda/audio/aec.py`), the audio cache
(`edda/cache.py`), and the server-message parsing and cache-store
dispatch (`edda/network/connection.py`, `client.py`).

Conventions used throughout the embedding:
 - Python `float` wall-clock timestamps are modelled as rationals `ℚ`;
   the clock value at each observation point is passed explicitly.
 - Python `int(x)` (truncation toward zero) is `pyInt`.
 - PCM sample values (numpy `int16`) are modelled as `ℤ`; audio byte
   strings handed around as opaque chunks are `List ℕ`.
 - `print` logging, thread locks, and disk I/O are side effects with no
   bearing on the verified data flow and are not modelled.
-/

/-- Python `int(x)` applied to a real (here rational) argument:
truncation toward zero. -/
def pyInt (q : ℚ) : ℤ := if 0 ≤ q then ⌊q⌋ else -⌊-q⌋

/-- The last `n` elements of a list (all of it when `n ≥ length`).
Used to model `collections.deque(maxlen=n)` contents. -/
def takeLastN {α : Type} (n : ℕ) (l : List α) : List α :=
  l.drop (l.length - n)

/-- An audio chunk: a raw byte string (`bytes` in the source). -/
abbrev Chunk := List ℕ

/-! ## Speech detector (`edda/speech/detector.py`) -/

/-- Events emitted by the speech detector (`SpeechEvent`). -/
inductive SpeechEvent where
  | SILENCE
  | STARTED
  | CONTINUING
  | ENDED
deriving DecidableEq, Repr

/-- `SpeechConfig`: timing configuration for speech detection, all in
milliseconds. -/
structure SpeechConfig where
  preBufferMs : ℚ := 300
  silenceDurationMs : ℚ := 900
  chunkDurationMs : ℚ := 30
deriving DecidableEq, Repr

/-- `SpeechConfig.pre_buffer_chunks`:
`max(1, int(self.pre_buffer_ms / self.chunk_duration_ms))`. -/
def SpeechConfig.preBufferChunks (c : SpeechConfig) : ℕ :=
  (max 1 (pyInt (c.preBufferMs / c.chunkDurationMs))).toNat

/-- `SpeechConfig.max_silence_chunks`:
`max(1, int(self.silence_duration_ms / self.chunk_duration_ms))`. -/
def SpeechConfig.maxSilenceChunks (c : SpeechConfig) : ℕ :=
  (max 1 (pyInt (c.silenceDurationMs / c.chunkDurationMs))).toNat

/-- Modelled from the spec: `pre_roll_chunks = max(1, round(pre_buffer_ms
/ chunk_ms))` where `round` is rounding to the nearest integer (the
spec's stated formula, to be compared with the code's
`SpeechConfig.preBufferChunks`). -/
def specPreRollChunksRound (c : SpeechConfig) : ℕ :=
  (max 1 (round (c.preBufferMs / c.chunkDurationMs))).toNat

/-- Modelled from the spec: `max_silence_chunks = max(1,
round(silence_duration_ms / chunk_ms))` with `round` to nearest. -/
def specMaxSilenceChunksRound (c : SpeechConfig) : ℕ :=
  (max 1 (round (c.silenceDurationMs / c.chunkDurationMs))).toNat

/-- Amended spec formula: `max(1, ⌊pre_buffer_ms / chunk_ms⌋)` —
truncating integer division, as Python `int()` on a nonnegative ratio. -/
def specPreRollChunksFloor (c : SpeechConfig) : ℕ :=
  (max 1 ⌊c.preBufferMs / c.chunkDurationMs⌋).toNat

/-- Amended spec formula: `max(1, ⌊silence_duration_ms / chunk_ms⌋)`. -/
def specMaxSilenceChunksFloor (c : SpeechConfig) : ℕ :=
  (max 1 ⌊c.silenceDurationMs / c.chunkDurationMs⌋).toNat

/-- `SpeechResult`: result of processing one audio chunk. -/
structure SpeechResult where
  event : SpeechEvent
  chunksToSend : List Chunk := []
  durationSeconds : Option ℚ := none
  chunksSent : Option ℕ := none
  speechEndedAt : Option ℚ := none
deriving DecidableEq, Repr

/-- `SpeechDetector` state: configuration, pre-buffer deque, and the
speaking/silence counters.  Timestamps (`datetime.now()`) are `ℚ`. -/
structure SpeechDetector where
  config : SpeechConfig
  preBuffer : List Chunk
  isSpeaking : Bool
  silenceChunks : ℕ
  chunksSent : ℕ
  speechStartTime : Option ℚ
  lastSpeechEndTime : Option ℚ
deriving DecidableEq, Repr

/-- `SpeechDetector.__init__(config)`: fresh detector state. -/
def SpeechDetector.init (cfg : SpeechConfig) : SpeechDetector :=
  { config := cfg, preBuffer := [], isSpeaking := false,
    silenceChunks := 0, chunksSent := 0,
    speechStartTime := none, lastSpeechEndTime := none }

/-- `deque(maxlen=m).append`: keep the last `m` elements after appending.
The detector's pre-buffer never exceeds its maxlen, for which this is
exactly the deque behaviour (append; drop the oldest on overflow). -/
def dequeAppend {α : Type} (maxlen : ℕ) (buf : List α) (x : α) : List α :=
  takeLastN maxlen (buf ++ [x])

/-- `SpeechDetector._process_speaking(audio_chunk, is_speech)`, with the
wall clock `now` passed explicitly (the source reads `datetime.now()`).
Returns the updated state and the emitted `SpeechResult`. -/
def SpeechDetector.processSpeaking (d : SpeechDetector) (chunk : Chunk)
    (isSpeech : Bool) (now : ℚ) : SpeechDetector × SpeechResult :=
  if isSpeech then
    ({ d with silenceChunks := 0, chunksSent := d.chunksSent + 1 },
     { event := SpeechEvent.CONTINUING, chunksToSend := [chunk] })
  else
    let s := d.silenceChunks + 1
    if d.config.maxSilenceChunks ≤ s then
      let duration := d.speechStartTime.map (fun st => now - st)
      ({ d with
          isSpeaking := false, silenceChunks := 0,
          speechStartTime := none, chunksSent := 0,
          lastSpeechEndTime := some now },
       { event := SpeechEvent.ENDED, durationSeconds := duration,
         chunksSent := some d.chunksSent, speechEndedAt := some now })
    else
      ({ d with silenceChunks := s, chunksSent := d.chunksSent + 1 },
       { event := SpeechEvent.CONTINUING, chunksToSend := [chunk] })

/-- `SpeechDetector._process_silent(audio_chunk, is_speech, speech_prob)`
(`speech_prob` is only logged in the source and is omitted here). -/
def SpeechDetector.processSilent (d : SpeechDetector) (chunk : Chunk)
    (isSpeech : Bool) (now : ℚ) : SpeechDetector × SpeechResult :=
  if isSpeech then
    let toSend := d.preBuffer ++ [chunk]
    ({ d with
        isSpeaking := true, silenceChunks := 0,
        speechStartTime := some now, chunksSent := toSend.length },
     { event := SpeechEvent.STARTED, chunksToSend := toSend })
  else
    ({ d with preBuffer :=
        dequeAppend d.config.preBufferChunks d.preBuffer chunk },
     { event := SpeechEvent.SILENCE })

/-- `SpeechDetector.process(audio_chunk, is_speech)`. -/
def SpeechDetector.process (d : SpeechDetector) (chunk : Chunk)
    (isSpeech : Bool) (now : ℚ) : SpeechDetector × SpeechResult :=
  if d.isSpeaking then d.processSpeaking chunk isSpeech now
  else d.processSilent chunk isSpeech now

/-- Run the detector over a list of chunks, all classified non-speech,
keeping only the state (times are irrelevant to the non-speech path). -/
def SpeechDetector.runSilentList (d : SpeechDetector) (chunks : List Chunk)
    (t : ℚ) : SpeechDetector :=
  chunks.foldl (fun st c => (st.process c false t).1) d

/-- Iterate `j` consecutive non-speech frames from state `d`, frame `i`
being chunk `chunks i` observed at time `times i`. -/
def SpeechDetector.iterSilent (d : SpeechDetector) (chunks : ℕ → Chunk)
    (times : ℕ → ℚ) : ℕ → SpeechDetector
  | 0 => d
  | j + 1 =>
      ((d.iterSilent chunks times j).process (chunks j) false (times j)).1

/-! ## Acoustic echo cancellation (`edda/audio/aec.py`) -/

/-- `AecConfig`: configuration for acoustic echo cancellation. -/
structure AecConfig where
  sampleRate : ℕ := 16000
  frameSize : ℕ := 160
  filterLengthMs : ℕ := 400
  enablePreprocess : Bool := true
  bufferDurationMs : ℕ := 15000
  speakerToMicDelayMs : ℕ := 50
deriving DecidableEq, Repr

/-- `AecConfig.filter_length`: filter length in samples
(`int(sample_rate * filter_length_ms / 1000)`). -/
def AecConfig.filterLength (c : AecConfig) : ℕ :=
  c.sampleRate * c.filterLengthMs / 1000

/-- `AecConfig.buffer_samples`: buffer size in samples. -/
def AecConfig.bufferSamples (c : AecConfig) : ℕ :=
  c.sampleRate * c.bufferDurationMs / 1000

/-- `AecConfig.delay_samples`: speaker-to-mic delay in samples. -/
def AecConfig.delaySamples (c : AecConfig) : ℕ :=
  c.sampleRate * c.speakerToMicDelayMs / 1000

/-- `ReferenceBuffer` state.  The numpy `int16` ring array `_samples` is
modelled as a total function from index to sample value (only indices
below `maxSamples` are ever read); `time.monotonic()` values are `ℚ`. -/
structure ReferenceBuffer where
  samples : ℕ → ℤ
  maxSamples : ℕ
  sampleRate : ℕ
  writePos : ℕ
  totalWritten : ℕ
  playbackStartTime : Option ℚ
  playbackStartSample : ℕ
  pendingStartSample : ℕ

/-- `ReferenceBuffer.__init__(max_samples, sample_rate)`. -/
def ReferenceBuffer.init (maxSamples sampleRate : ℕ) : ReferenceBuffer :=
  { samples := fun _ => 0, maxSamples := maxSamples,
    sampleRate := sampleRate, writePos := 0, totalWritten := 0,
    playbackStartTime := none, playbackStartSample := 0,
    pendingStartSample := 0 }

/-- `ReferenceBuffer.begin_playback_registration()`: zero the ring array
and reset the write cursors; `_playback_start_time` (and the start
sample latched from it) is deliberately left untouched. -/
def ReferenceBuffer.beginPlaybackRegistration
    (b : ReferenceBuffer) : ReferenceBuffer :=
  { b with
      samples := fun _ => 0, writePos := 0, totalWritten := 0,
      pendingStartSample := 0 }

/-- `ReferenceBuffer.start_playback()` at monotonic time `now`. -/
def ReferenceBuffer.startPlayback (b : ReferenceBuffer) (now : ℚ) :
    ReferenceBuffer :=
  { b with
      playbackStartTime := some now,
      playbackStartSample := b.pendingStartSample }

/-- `ReferenceBuffer.end_playback()`. -/
def ReferenceBuffer.endPlayback (b : ReferenceBuffer) : ReferenceBuffer :=
  { b with playbackStartTime := none }

/-- `ReferenceBuffer.is_playing`. -/
def ReferenceBuffer.isPlaying (b : ReferenceBuffer) : Bool :=
  b.playbackStartTime.isSome

/-- `ReferenceBuffer.write(samples)`: the two numpy slice assignments
(straight or wrap-around), then advance `_write_pos` modulo capacity and
`_total_written`.  The input is already a list of `int16` values (the
source's dtype conversion is the identity on `int16` input, which is
what `register_playback` always passes). -/
def ReferenceBuffer.write (b : ReferenceBuffer) (xs : List ℤ) :
    ReferenceBuffer :=
  let n := xs.length
  let spaceAtEnd := b.maxSamples - b.writePos
  let f : ℕ → ℤ := fun i =>
    if n ≤ spaceAtEnd then
      if b.writePos ≤ i ∧ i < b.writePos + n then
        xs.getD (i - b.writePos) 0
      else b.samples i
    else
      if b.writePos ≤ i ∧ i < b.maxSamples then
        xs.getD (i - b.writePos) 0
      else if i < n - spaceAtEnd then
        xs.getD (spaceAtEnd + i) 0
      else b.samples i
  { b with
      samples := f,
      writePos := (b.writePos + n) % b.maxSamples,
      totalWritten := b.totalWritten + n }

/-- Fold a list of `write` calls over a reference buffer. -/
def ReferenceBuffer.writesFold (b : ReferenceBuffer)
    (ws : List (List ℤ)) : ReferenceBuffer :=
  ws.foldl ReferenceBuffer.write b

/-- `ReferenceBuffer.read_for_time(num_samples, delay_samples)` with the
monotonic clock `now` explicit.  Returns `(samples or none, within
playback window)`. -/
def ReferenceBuffer.readForTime (b : ReferenceBuffer) (numSamples : ℕ)
    (delaySamples : ℕ) (now : ℚ) : Option (List ℤ) × Bool :=
  match b.playbackStartTime with
  | none => (none, false)
  | some t0 =>
    let elapsed : ℚ := now - t0
    let samplesElapsed : ℤ :=
      pyInt (elapsed * (b.sampleRate : ℚ)) - (delaySamples : ℤ)
    if samplesElapsed < 0 then
      (some (List.replicate numSamples 0), true)
    else
      let sE : ℕ := samplesElapsed.toNat
      let target : ℕ := b.playbackStartSample + sE
      if b.totalWritten ≤ target then (none, false)
      else
        let bufferOffset := target % b.maxSamples
        (some ((List.range numSamples).map fun i =>
          if b.playbackStartSample + sE + i < b.totalWritten then
            b.samples ((bufferOffset + i) % b.maxSamples)
          else 0), true)

/-- The external speex engine's `Aec.cancel_echo(mic, ref)` call, an
opaque per-frame transformation; `none` models the exception path that
`EchoCanceller.cancel_echo` catches and turns into pass-through. -/
abbrev AecEngine := List ℤ → List ℤ → Option (List ℤ)

/-- `EchoCanceller` state.  `_frames_processed` and `_frames_cancelled`
are debug counters with no influence on the output and are omitted. -/
structure EchoCanceller where
  config : AecConfig
  aec : Option AecEngine
  referenceBuffer : ReferenceBuffer
  initialized : Bool

/-- One iteration of the frame loop in `EchoCanceller.cancel_echo`: pad
a (possibly short) mic frame, fetch the time-matched reference frame,
run the engine when a reference is available, and truncate back to the
original length. -/
def EchoCanceller.processMicFrame (ec : EchoCanceller) (f : AecEngine)
    (chunk : List ℤ) (now : ℚ) : List ℤ :=
  let frameSize := ec.config.frameSize
  let originalLen := chunk.length
  let micFrame := chunk ++ List.replicate (frameSize - originalLen) 0
  match ec.referenceBuffer.readForTime frameSize
      ec.config.delaySamples now with
  | (some refFrame, true) =>
    match f micFrame refFrame with
    | some processed =>
        if originalLen < frameSize then processed.take originalLen
        else processed
    | none =>
        if originalLen < frameSize then micFrame.take originalLen
        else micFrame
  | _ =>
        if originalLen < frameSize then micFrame.take originalLen
        else micFrame

/-- The frame loop `for i in range(0, len(mic_samples), frame_size)` of
`cancel_echo`, fuelled by the input length (faithful for a positive
frame size).  `idx` numbers the frames so each can observe its own
monotonic clock reading `now idx`; the per-frame outputs are
concatenated as by `np.concatenate`. -/
def EchoCanceller.cancelFramesGo (ec : EchoCanceller) (f : AecEngine)
    (now : ℕ → ℚ) : ℕ → ℕ → List ℤ → List ℤ
  | _, _, [] => []
  | 0, _, _ :: _ => []
  | fuel + 1, idx, x :: rest =>
    ec.processMicFrame f ((x :: rest).take ec.config.frameSize) (now idx)
      ++ ec.cancelFramesGo f now fuel (idx + 1)
          ((x :: rest).drop ec.config.frameSize)

/-- `EchoCanceller.cancel_echo(mic_bytes)`.  The mic input is the list
of `int16` samples that `np.frombuffer` yields from `mic_bytes`; the
early pass-through paths return it unchanged exactly as the source
returns `mic_bytes` unchanged. -/
def EchoCanceller.cancelEcho (ec : EchoCanceller) (mic : List ℤ)
    (now : ℕ → ℚ) : List ℤ :=
  if ec.initialized = false then mic
  else
    match ec.aec with
    | none => mic
    | some f =>
      if ec.referenceBuffer.isPlaying = false then mic
      else ec.cancelFramesGo f now mic.length 0 mic

/-! ## Audio cache (`edda/cache.py`) -/

/-- The on-disk file name that `CacheManager` builds for a cache key:
`f"{cache_key}.wav"` (used identically by `has`, `get`, `get_path`,
`store`).  The cache directory prefix is common to all keys and is
dropped. -/
def cacheFileName (cacheKey : String) : String :=
  cacheKey ++ ".wav"

/-- A character permitted by the spec's sanitization alphabet
`[A-Za-z0-9_-]`. -/
def isAllowedKeyChar (c : Char) : Bool :=
  c.isAlphanum || c = '_' || c = '-'

/-- Modelled from the spec: "Sanitization restricts keys to
`[A-Za-z0-9_-]`; unknown characters are stripped before path
construction."  No such function exists in `src/pi-client`; this is the
spec's sanitizer, to be compared with the code's path construction. -/
def specSanitizeKey (key : String) : String :=
  String.mk (key.toList.filter isAllowedKeyChar)

/-- Modelled from the spec: the file name the spec says the cache uses,
`<sanitized_key>.wav`. -/
def specSanitizedFileName (key : String) : String :=
  specSanitizeKey key ++ ".wav"

/-- Metadata row kept per cache entry (`CacheManager.metadata`). -/
structure CacheMeta where
  created : ℚ
  lastAccessed : ℚ
  sizeBytes : ℕ
  sampleRate : ℕ
  channels : ℕ
  durationMs : ℕ

/-- `CacheManager` state: the metadata map and the cache directory's
files, both keyed functionally (`metadata` by cache key, `files` by file
name).  `metadata.json` persistence, the clear policies and the size
limit run at initialization or after a successful store and are not
needed by the dispatch claims. -/
structure CacheManager where
  metadata : String → Option CacheMeta
  files : String → Option (List ℕ)

/-- `CacheManager.has(cache_key)`: key present in metadata and its file
present on disk; a metadata entry whose file is missing is deleted as a
side effect.  Returns the (possibly updated) manager and the result. -/
def CacheManager.has (c : CacheManager) (cacheKey : String) :
    CacheManager × Bool :=
  match c.metadata cacheKey with
  | none => (c, false)
  | some _ =>
    match c.files (cacheFileName cacheKey) with
    | none =>
      ({ c with metadata := fun k =>
          if k = cacheKey then none else c.metadata k }, false)
    | some _ => (c, true)

/-- `CacheManager.store(cache_key, audio_data, ...)` at wall time `now`:
write the file, record fresh metadata.  (The subsequent size-limit
enforcement can only delete entries and is not modelled; the claims only
exercise paths on which `store` is not reached or not followed by it.) -/
def CacheManager.store (c : CacheManager) (cacheKey : String)
    (audioData : List ℕ) (sampleRate channels durationMs : ℕ)
    (now : ℚ) : CacheManager :=
  { metadata := fun k =>
      if k = cacheKey then
        some { created := now, lastAccessed := now,
               sizeBytes := audioData.length, sampleRate := sampleRate,
               channels := channels, durationMs := durationMs }
      else c.metadata k,
    files := fun n =>
      if n = cacheFileName cacheKey then some audioData
      else c.files n }

/-! ## Server messages (`edda/network/connection.py`, `client.py`) -/

/-- `MessageType`: the server message types the client's parser knows.
This is the complete member list of the source enum — it has no
`STATUS` member. -/
inductive MessageType where
  | AUDIO_PLAYBACK
  | AUDIO_LOADING
  | AUDIO_STREAM_START
  | AUDIO_STREAM_CHUNK
  | AUDIO_STREAM_END
  | AUDIO_SENTENCE
  | AUDIO_CACHE_PLAY
  | AUDIO_CACHE_STORE
  | RESPONSE_COMPLETE
deriving DecidableEq, Repr

/-- The wire string of each `MessageType` member. -/
def MessageType.value : MessageType → String
  | .AUDIO_PLAYBACK => "audio_playback"
  | .AUDIO_LOADING => "audio_loading"
  | .AUDIO_STREAM_START => "audio_stream_start"
  | .AUDIO_STREAM_CHUNK => "audio_stream_chunk"
  | .AUDIO_STREAM_END => "audio_stream_end"
  | .AUDIO_SENTENCE => "audio_sentence"
  | .AUDIO_CACHE_PLAY => "audio_cache_play"
  | .AUDIO_CACHE_STORE => "audio_cache_store"
  | .RESPONSE_COMPLETE => "response_complete"

/-- The tag dispatch of `ServerConnection._parse_message`: the
`if/elif` chain comparing `data.get("type")` against each enum value;
any other tag falls through to the unknown-message branch, which logs
and returns `None`. -/
def parseMessageTag (msgType : String) : Option MessageType :=
  if msgType = MessageType.AUDIO_PLAYBACK.value then
    some MessageType.AUDIO_PLAYBACK
  else if msgType = MessageType.AUDIO_LOADING.value then
    some MessageType.AUDIO_LOADING
  else if msgType = MessageType.AUDIO_STREAM_START.value then
    some MessageType.AUDIO_STREAM_START
  else if msgType = MessageType.AUDIO_STREAM_CHUNK.value then
    some MessageType.AUDIO_STREAM_CHUNK
  else if msgType = MessageType.AUDIO_STREAM_END.value then
    some MessageType.AUDIO_STREAM_END
  else if msgType = MessageType.AUDIO_SENTENCE.value then
    some MessageType.AUDIO_SENTENCE
  else if msgType = MessageType.AUDIO_CACHE_PLAY.value then
    some MessageType.AUDIO_CACHE_PLAY
  else if msgType = MessageType.AUDIO_CACHE_STORE.value then
    some MessageType.AUDIO_CACHE_STORE
  else if msgType = MessageType.RESPONSE_COMPLETE.value then
    some MessageType.RESPONSE_COMPLETE
  else none

/-- `AudioCacheStoreMessage`: parsed `audio_cache_store` payload. -/
structure AudioCacheStoreMessage where
  cacheKey : String
  data : List ℕ
  sampleRate : ℕ
  channels : ℕ
  durationMs : ℕ

/-- The `AUDIO_CACHE_STORE` branch of `client.py receive_messages` (the
same logic as `MessageHandler._handle_cache_store`): if the key is
already cached, only log; otherwise store and start async playback of
the received audio.  Returns the resulting cache state and whether
playback of the message's audio was started (`playback_event.set()` +
`player.play_wav_async`). -/
def handleCacheStore (c : CacheManager) (msg : AudioCacheStoreMessage)
    (now : ℚ) : CacheManager × Bool :=
  let checked := c.has msg.cacheKey
  if checked.2 then (checked.1, false)
  else
    (checked.1.store msg.cacheKey msg.data msg.sampleRate msg.channels
      msg.durationMs now, true)

/-! ## Concrete fixtures used by counterexamples and witnesses -/

/-- The wire tag of a server `status` message. -/
def statusTag : String := "status"

/-- A cache key containing path-traversal characters. -/
def traversalKey : String := "../evil"

/-- A cache key made only of characters from the spec's sanitization
alphabet. -/
def goodKey : String := "prompt_01-a"

/-- An uninitialized echo canceller (as after a failed `initialize()`):
`_initialized` is false and `_aec` is `None`. -/
def ecUninit : EchoCanceller :=
  { config := {}, aec := none,
    referenceBuffer := ReferenceBuffer.init 240000 16000,
    initialized := false }

/-- A configuration whose ms-to-chunk ratios are not half-integers and
do not divide evenly: `300 / 175 = 12/7 ≈ 1.71`. -/
def cfgTrunc : SpeechConfig :=
  { preBufferMs := 300, silenceDurationMs := 900, chunkDurationMs := 175 }

/-- The default speech configuration (300 ms pre-buffer, 900 ms silence,
30 ms chunks). -/
def cfgDefault : SpeechConfig := {}

/-- Metadata row for the concrete cache fixture. -/
def metaEx : CacheMeta :=
  { created := 0, lastAccessed := 0, sizeBytes := 4,
    sampleRate := 24000, channels := 2, durationMs := 10 }

/-- Key stored in the concrete cache fixture. -/
def keyEx : String := "boot_prompt"

/-- A cache holding exactly `keyEx`, with its file present. -/
def cacheEx : CacheManager :=
  { metadata := fun k => if k = keyEx then some metaEx else none,
    files := fun n =>
      if n = cacheFileName keyEx then some [1, 2, 3, 4] else none }

/-- An `audio_cache_store` message for the already-cached `keyEx`. -/
def msgEx : AudioCacheStoreMessage :=
  { cacheKey := keyEx, data := [9, 9], sampleRate := 24000,
    channels := 2, durationMs := 10 }

/-! ## Claim theorems -/

/-- C1: for every microphone input, if the echo canceller is
uninitialized or the reference buffer's playback start time is null,
then `cancel_echo` returns the input unchanged. -/
theorem cancelEcho_passthrough_when_inactive (ec : EchoCanceller)
    (mic : List ℤ) (now : ℕ → ℚ)
    (h : ec.initialized = false ∨
      ec.referenceBuffer.playbackStartTime = none) :
    ec.cancelEcho mic now = mic := by
  by_cases hi : ec.initialized = false
  · simp [EchoCanceller.cancelEcho, hi]
  · rcases h with h | h
    · exact absurd h hi
    · rcases haec : ec.aec with _ | f
      · simp [EchoCanceller.cancelEcho, haec]
      · simp [EchoCanceller.cancelEcho, haec, hi,
          ReferenceBuffer.isPlaying, h]

/-- Witness for C1: a concrete uninitialized canceller passes a concrete
mic buffer through unchanged. -/
theorem cancelEcho_passthrough_when_inactive_witness :
    (ecUninit.initialized = false ∨
      ecUninit.referenceBuffer.playbackStartTime = none) ∧
    ecUninit.cancelEcho [5, -3, 12] (fun _ => 0) = [5, -3, 12] :=
  ⟨Or.inl rfl,
   cancelEcho_passthrough_when_inactive ecUninit [5, -3, 12]
     (fun _ => 0) (Or.inl rfl)⟩

/-- C7: `begin_playback_registration` zeroes the ring contents and the
write/total/pending cursors while leaving `_playback_start_time`
untouched. -/
theorem beginPlaybackRegistration_clears_keeps_timing
    (b : ReferenceBuffer) :
    (∀ i, b.beginPlaybackRegistration.samples i = 0) ∧
    b.beginPlaybackRegistration.writePos = 0 ∧
    b.beginPlaybackRegistration.totalWritten = 0 ∧
    b.beginPlaybackRegistration.pendingStartSample = 0 ∧
    b.beginPlaybackRegistration.playbackStartTime =
      b.playbackStartTime :=
  ⟨fun _ => rfl, rfl, rfl, rfl, rfl⟩

/-- C8: the message parser of `connection.py` does not recognize the
`status` tag — it falls through to the unknown-message branch and the
message is dropped (`_parse_message` returns `None`), even though
`handler.py` registers a `STATUS` handler. -/
theorem status_tag_unrecognized : parseMessageTag statusTag = none := by
  decide

/-- C4 counterexample: for the key `../evil` the code's path
construction uses the raw key, which differs from the spec's sanitized
path; the claim that store/lookup paths are built from a sanitized key
is false at this input. -/
theorem cacheFileName_not_sanitized_counterexample :
    cacheFileName traversalKey ≠ specSanitizedFileName traversalKey := by
  decide

/-- C4 amended: the cache builds the on-disk file name by appending
`.wav` to the raw, unsanitized cache key; the spec's sanitized path is
only obtained when the key already consists solely of characters from
`[A-Za-z0-9_-]`. -/
theorem cacheFileName_uses_raw_key (key : String) :
    cacheFileName key = key ++ ".wav" ∧
    (key.toList.all isAllowedKeyChar = true →
      cacheFileName key = specSanitizedFileName key) := by
  refine ⟨rfl, fun h => ?_⟩
  unfold cacheFileName specSanitizedFileName specSanitizeKey
  have hf : key.toList.filter isAllowedKeyChar = key.toList :=
    List.filter_eq_self.mpr (by simpa [List.all_eq_true] using h)
  rw [hf]
  cases key
  rfl

/-- Witness for C4's amended claim at a purely alphanumeric key. -/
theorem cacheFileName_uses_raw_key_witness :
    goodKey.toList.all isAllowedKeyChar = true ∧
    cacheFileName goodKey = specSanitizedFileName goodKey :=
  ⟨by decide, (cacheFileName_uses_raw_key goodKey).2 (by decide)⟩

/-- C5 counterexample: at `pre_buffer_ms = 300`, `chunk_ms = 175` the
code computes `max(1, int(300/175)) = 1` while the spec's
round-to-nearest formula gives `max(1, round(300/175)) = 2`; the claim
is false at this configuration. -/
theorem chunk_params_round_counterexample :
    ¬(SpeechConfig.preBufferChunks cfgTrunc =
        specPreRollChunksRound cfgTrunc ∧
      SpeechConfig.maxSilenceChunks cfgTrunc =
        specMaxSilenceChunksRound cfgTrunc) := by
  have hcode : SpeechConfig.preBufferChunks cfgTrunc = 1 := by
    have hfl : ⌊(300 / 175 : ℚ)⌋ = 1 := by
      rw [Int.floor_eq_iff]
      norm_num
    unfold SpeechConfig.preBufferChunks cfgTrunc pyInt
    rw [if_pos (by norm_num)]
    norm_num [hfl]
  have hspec : specPreRollChunksRound cfgTrunc = 2 := by
    have hfl : ⌊(300 / 175 + 1 / 2 : ℚ)⌋ = 2 := by
      rw [Int.floor_eq_iff]
      norm_num
    unfold specPreRollChunksRound cfgTrunc
    rw [round_eq]
    norm_num [hfl]
    rfl
  intro h
  rw [hcode, hspec] at h
  exact absurd h.1 (by norm_num)

/-- C5 amended: for every configuration with nonnegative ms ratios, the
derived parameters use truncating integer division (Python `int`):
`pre_roll_chunks = max(1, ⌊pre_buffer_ms / chunk_ms⌋)` and
`max_silence_chunks = max(1, ⌊silence_duration_ms / chunk_ms⌋)`. -/
theorem chunk_params_floor (c : SpeechConfig)
    (h1 : 0 ≤ c.preBufferMs / c.chunkDurationMs)
    (h2 : 0 ≤ c.silenceDurationMs / c.chunkDurationMs) :
    c.preBufferChunks = specPreRollChunksFloor c ∧
    c.maxSilenceChunks = specMaxSilenceChunksFloor c := by
  unfold SpeechConfig.preBufferChunks SpeechConfig.maxSilenceChunks
    specPreRollChunksFloor specMaxSilenceChunksFloor pyInt
  rw [if_pos h1, if_pos h2]
  exact ⟨rfl, rfl⟩

/-- Witness for C5's amended claim at the default configuration
(`300/30 = 10` pre-roll chunks, `900/30 = 30` silence chunks). -/
theorem chunk_params_floor_witness :
    (0 ≤ cfgDefault.preBufferMs / cfgDefault.chunkDurationMs) ∧
    cfgDefault.preBufferChunks = specPreRollChunksFloor cfgDefault ∧
    cfgDefault.maxSilenceChunks = specMaxSilenceChunksFloor cfgDefault :=
  ⟨by norm_num [cfgDefault],
   chunk_params_floor cfgDefault (by norm_num [cfgDefault])
     (by norm_num [cfgDefault])⟩

/-- C10: an `audio_cache_store` message whose key is already present in
the cache (metadata entry and file both exist) leaves the cache
untouched and starts no playback. -/
theorem handleCacheStore_present_noop (c : CacheManager)
    (msg : AudioCacheStoreMessage) (now : ℚ)
    (hm : (c.metadata msg.cacheKey).isSome = true)
    (hf : (c.files (cacheFileName msg.cacheKey)).isSome = true) :
    handleCacheStore c msg now = (c, false) := by
  unfold handleCacheStore CacheManager.has
  rcases h1 : c.metadata msg.cacheKey with _ | m
  · rw [h1] at hm
    simp at hm
  · rcases h2 : c.files (cacheFileName msg.cacheKey) with _ | d
    · rw [h2] at hf
      simp at hf
    · simp [h1, h2]

/-- Witness for C10: storing `keyEx` into a cache that already holds it
changes nothing and plays nothing. -/
theorem handleCacheStore_present_noop_witness :
    (cacheEx.metadata msgEx.cacheKey).isSome = true ∧
    (cacheEx.files (cacheFileName msgEx.cacheKey)).isSome = true ∧
    handleCacheStore cacheEx msgEx 0 = (cacheEx, false) :=
  ⟨by decide, by decide,
   handleCacheStore_present_noop cacheEx msgEx 0 (by decide) (by decide)⟩

/-! ## Supporting lemmas: pre-roll deque -/

/-- Keeping the last `n` of an already-trimmed list appended with more
elements is the same as trimming the whole concatenation. -/
theorem takeLastN_append_left {α : Type} (n : ℕ) (l r : List α) :
    takeLastN n (takeLastN n l ++ r) = takeLastN n (l ++ r) := by
  unfold takeLastN
  rw [← List.drop_append_of_le_length (Nat.sub_le l.length n)]
  rw [List.drop_drop]
  congr 1
  simp [List.length_append, List.length_drop]
  omega

/-- A trimmed list never exceeds its bound. -/
theorem takeLastN_length_le {α : Type} (n : ℕ) (l : List α) :
    (takeLastN n l).length ≤ n := by
  unfold takeLastN
  rw [List.length_drop]
  omega

/-- Processing a non-speech chunk while not speaking only appends to the
pre-buffer deque. -/
theorem process_nonspeech_idle (d : SpeechDetector) (c : Chunk) (t : ℚ)
    (h : d.isSpeaking = false) :
    (d.process c false t).1 =
      { d with preBuffer :=
          dequeAppend d.config.preBufferChunks d.preBuffer c } := by
  unfold SpeechDetector.process SpeechDetector.processSilent
  rw [h]
  rfl

/-- Running any number of non-speech chunks from a non-speaking state
whose pre-buffer is within its deque bound leaves everything unchanged
except the pre-buffer, which ends up holding the last
`pre_buffer_chunks` of the previous contents plus the new chunks. -/
theorem runSilentList_eq (d : SpeechDetector) (chunks : List Chunk)
    (t : ℚ) (h : d.isSpeaking = false)
    (hlen : d.preBuffer.length ≤ d.config.preBufferChunks) :
    d.runSilentList chunks t =
      { d with preBuffer :=
          takeLastN d.config.preBufferChunks (d.preBuffer ++ chunks) } := by
  induction chunks generalizing d with
  | nil =>
    simp only [SpeechDetector.runSilentList, List.foldl_nil,
      List.append_nil]
    have hself : takeLastN d.config.preBufferChunks d.preBuffer =
        d.preBuffer := by
      unfold takeLastN
      rw [Nat.sub_eq_zero_of_le hlen, List.drop_zero]
    rw [hself]
  | cons c cs ih =>
    have hrun : d.runSilentList (c :: cs) t =
        ((d.process c false t).1).runSilentList cs t := rfl
    rw [hrun, process_nonspeech_idle d c t h]
    rw [ih
      { d with
          preBuffer := dequeAppend d.config.preBufferChunks d.preBuffer c }
      h (takeLastN_length_le _ _)]
    congr 1
    unfold dequeAppend
    rw [takeLastN_append_left]
    congr 1
    simp

/-- C2: starting from a fresh detector, after any run of N non-speech
frames, the first speech frame triggers a `STARTED` event whose
`chunks_to_send` is the last `min(N, pre_roll_chunks)` buffered frames
in observation order followed by the triggering frame. -/
theorem started_preroll_flush (cfg : SpeechConfig) (silent : List Chunk)
    (c : Chunk) (t tTrig : ℚ) :
    (((SpeechDetector.init cfg).runSilentList silent t).process c true
        tTrig).2.event = SpeechEvent.STARTED ∧
    (((SpeechDetector.init cfg).runSilentList silent t).process c true
        tTrig).2.chunksToSend =
      silent.drop (silent.length - min silent.length cfg.preBufferChunks)
        ++ [c] := by
  rw [runSilentList_eq (SpeechDetector.init cfg) silent t rfl
    (by simp [SpeechDetector.init])]
  unfold SpeechDetector.process SpeechDetector.processSilent
    SpeechDetector.init
  simp only [List.nil_append, if_true, if_pos]
  refine ⟨rfl, ?_⟩
  show takeLastN cfg.preBufferChunks silent ++ [c] = _
  unfold takeLastN
  congr 2
  omega

/-! ## Supporting lemmas: end-of-speech threshold -/

/-- `max_silence_chunks` is at least 1 for every configuration (the
source clamps with `max(1, ...)`). -/
theorem one_le_maxSilenceChunks (c : SpeechConfig) :
    1 ≤ c.maxSilenceChunks := by
  unfold SpeechConfig.maxSilenceChunks
  have h : (1 : ℤ) ≤ max 1 (pyInt (c.silenceDurationMs / c.chunkDurationMs)) :=
    le_max_left _ _
  omega

/-- While strictly below the silence threshold, each non-speech frame in
the speaking state only bumps `silence_streak` and `chunks_sent`. -/
theorem iterSilent_grace (d : SpeechDetector) (chunks : ℕ → Chunk)
    (times : ℕ → ℚ) (hs : d.isSpeaking = true) (h0 : d.silenceChunks = 0)
    (j : ℕ) (hj : j < d.config.maxSilenceChunks) :
    d.iterSilent chunks times j =
      { d with silenceChunks := j, chunksSent := d.chunksSent + j } := by
  induction j with
  | zero =>
    cases d
    simp_all [SpeechDetector.iterSilent]
  | succ j ih =>
    rw [SpeechDetector.iterSilent, ih (by omega)]
    unfold SpeechDetector.process SpeechDetector.processSpeaking
    simp only [hs, if_true]
    rw [if_neg (by simp only [Bool.false_eq_true]; trivial),
      if_neg (by omega)]
    cases d
    simp [Nat.add_assoc]

/-- A short-silence configuration: `max_silence_chunks = 2` (60 ms of
silence at 30 ms chunks). -/
def cfgShort : SpeechConfig :=
  { preBufferMs := 300, silenceDurationMs := 60, chunkDurationMs := 30 }

/-- A concrete speaking-state detector using `cfgShort`. -/
def dSpeaking : SpeechDetector :=
  { config := cfgShort, preBuffer := [], isSpeaking := true,
    silenceChunks := 0, chunksSent := 5, speechStartTime := some 0,
    lastSpeechEndTime := none }

/-- C3: from a speaking state with no silence streak, consecutive
non-speech frames emit `CONTINUING` carrying the current frame and leave
`last_speech_ended_at` untouched for the first `max_silence_chunks - 1`
frames, and the `max_silence_chunks`-th frame emits `ENDED` and records
`last_speech_ended_at` as that frame's time — never earlier. -/
theorem ended_exactly_at_max_silence (d : SpeechDetector)
    (chunks : ℕ → Chunk) (times : ℕ → ℚ)
    (hs : d.isSpeaking = true) (h0 : d.silenceChunks = 0) :
    (∀ i, i + 1 < d.config.maxSilenceChunks →
      ((d.iterSilent chunks times i).process (chunks i) false
          (times i)).2.event = SpeechEvent.CONTINUING ∧
      ((d.iterSilent chunks times i).process (chunks i) false
          (times i)).2.chunksToSend = [chunks i] ∧
      (d.iterSilent chunks times (i + 1)).lastSpeechEndTime =
        d.lastSpeechEndTime) ∧
    ((d.iterSilent chunks times (d.config.maxSilenceChunks - 1)).process
        (chunks (d.config.maxSilenceChunks - 1)) false
        (times (d.config.maxSilenceChunks - 1))).2.event =
      SpeechEvent.ENDED ∧
    (d.iterSilent chunks times d.config.maxSilenceChunks).lastSpeechEndTime
      = some (times (d.config.maxSilenceChunks - 1)) := by
  have hM := one_le_maxSilenceChunks d.config
  constructor
  · intro i hi
    rw [iterSilent_grace d chunks times hs h0 i (by omega),
      iterSilent_grace d chunks times hs h0 (i + 1) (by omega)]
    unfold SpeechDetector.process SpeechDetector.processSpeaking
    simp only [hs, if_true]
    rw [if_neg (by simp only [Bool.false_eq_true]; trivial),
      if_neg (by omega)]
    exact ⟨rfl, rfl, by trivial⟩
  · have hiter :
        d.iterSilent chunks times d.config.maxSilenceChunks =
          ((d.iterSilent chunks times
              (d.config.maxSilenceChunks - 1)).process
            (chunks (d.config.maxSilenceChunks - 1)) false
            (times (d.config.maxSilenceChunks - 1))).1 := by
      conv_lhs =>
        rw [show d.config.maxSilenceChunks =
          (d.config.maxSilenceChunks - 1) + 1 by omega]
      rw [SpeechDetector.iterSilent]
    rw [hiter,
      iterSilent_grace d chunks times hs h0
        (d.config.maxSilenceChunks - 1) (by omega)]
    unfold SpeechDetector.process SpeechDetector.processSpeaking
    simp only [hs, if_true]
    rw [if_neg (by simp only [Bool.false_eq_true]; trivial),
      if_pos (by omega)]
    exact ⟨rfl, rfl⟩

/-- Witness for C3: with `max_silence_chunks = 2`, the second silent
frame ends the utterance. -/
theorem ended_exactly_at_max_silence_witness :
    dSpeaking.isSpeaking = true ∧ dSpeaking.silenceChunks = 0 ∧
    ((dSpeaking.iterSilent (fun _ => [0]) (fun i => (i : ℚ))
        (dSpeaking.config.maxSilenceChunks - 1)).process [0] false
        ((dSpeaking.config.maxSilenceChunks - 1 : ℕ) : ℚ)).2.event =
      SpeechEvent.ENDED := by
  refine ⟨rfl, rfl, ?_⟩
  have h := (ended_exactly_at_max_silence dSpeaking (fun _ => [0])
    (fun i => (i : ℚ)) rfl rfl).2.1
  exact h

/-! ## Supporting lemmas: AEC target-exhaustion pass-through -/

/-- When elapsed-time samples are nonnegative and the target position
has reached `total_written`, `read_for_time` reports "playback ended". -/
theorem readForTime_exhausted (b : ReferenceBuffer) (numSamples : ℕ)
    (delaySamples : ℕ) (now t0 : ℚ)
    (ht : b.playbackStartTime = some t0)
    (hs : 0 ≤ pyInt ((now - t0) * (b.sampleRate : ℚ)) - (delaySamples : ℤ))
    (hx : b.totalWritten ≤ b.playbackStartSample +
      (pyInt ((now - t0) * (b.sampleRate : ℚ)) - (delaySamples : ℤ)).toNat) :
    b.readForTime numSamples delaySamples now = (none, false) := by
  unfold ReferenceBuffer.readForTime
  rw [ht]
  simp only
  rw [if_neg (not_lt.mpr hs), if_pos hx]

/-- A frame whose time-matched reference is exhausted passes through the
frame loop body unchanged. -/
theorem processMicFrame_exhausted (ec : EchoCanceller) (f : AecEngine)
    (chunk : List ℤ) (now t0 : ℚ)
    (ht : ec.referenceBuffer.playbackStartTime = some t0)
    (hlen : chunk.length ≤ ec.config.frameSize)
    (hs : 0 ≤ pyInt ((now - t0) * (ec.referenceBuffer.sampleRate : ℚ))
        - (ec.config.delaySamples : ℤ))
    (hx : ec.referenceBuffer.totalWritten ≤
        ec.referenceBuffer.playbackStartSample +
        (pyInt ((now - t0) * (ec.referenceBuffer.sampleRate : ℚ))
          - (ec.config.delaySamples : ℤ)).toNat) :
    ec.processMicFrame f chunk now = chunk := by
  unfold EchoCanceller.processMicFrame
  dsimp only
  rw [readForTime_exhausted ec.referenceBuffer ec.config.frameSize
    ec.config.delaySamples now t0 ht hs hx]
  simp only
  by_cases hl : chunk.length < ec.config.frameSize
  · rw [if_pos hl, List.take_left]
  · rw [if_neg hl, show ec.config.frameSize - chunk.length = 0 by omega]
    simp

/-- If every frame passes through the loop body unchanged, the whole
frame loop is the identity on the mic samples. -/
theorem cancelFramesGo_passthrough (ec : EchoCanceller) (f : AecEngine)
    (now : ℕ → ℚ) (hF : 0 < ec.config.frameSize)
    (h : ∀ idx (chunk : List ℤ), chunk.length ≤ ec.config.frameSize →
      ec.processMicFrame f chunk (now idx) = chunk) :
    ∀ fuel idx l, l.length ≤ fuel →
      ec.cancelFramesGo f now fuel idx l = l := by
  intro fuel
  induction fuel with
  | zero =>
    intro idx l hl
    cases l with
    | nil => rfl
    | cons x xs => simp at hl
  | succ n ih =>
    intro idx l hl
    cases l with
    | nil => rfl
    | cons x xs =>
      rw [EchoCanceller.cancelFramesGo]
      rw [h idx ((x :: xs).take ec.config.frameSize)
        (by rw [List.length_take]; omega)]
      rw [ih (idx + 1) ((x :: xs).drop ec.config.frameSize)
        (by simp only [List.length_drop, List.length_cons] at hl ⊢; omega)]
      exact List.take_append_drop _ _

/-- C6: while playback timing is active, if for every frame the computed
target position `playback_start_sample + s_elapsed` is at or beyond
`total_written`, `cancel_echo` passes the mic input through
unmodified. -/
theorem cancelEcho_exhausted_passthrough (ec : EchoCanceller)
    (f : AecEngine) (mic : List ℤ) (now : ℕ → ℚ) (t0 : ℚ)
    (hinit : ec.initialized = true) (haec : ec.aec = some f)
    (ht : ec.referenceBuffer.playbackStartTime = some t0)
    (hF : 0 < ec.config.frameSize)
    (hexh : ∀ i,
      0 ≤ pyInt ((now i - t0) * (ec.referenceBuffer.sampleRate : ℚ))
          - (ec.config.delaySamples : ℤ) ∧
      ec.referenceBuffer.totalWritten ≤
        ec.referenceBuffer.playbackStartSample +
        (pyInt ((now i - t0) * (ec.referenceBuffer.sampleRate : ℚ))
          - (ec.config.delaySamples : ℤ)).toNat) :
    ec.cancelEcho mic now = mic := by
  have hp : ec.referenceBuffer.isPlaying = true := by
    unfold ReferenceBuffer.isPlaying
    rw [ht]
    rfl
  unfold EchoCanceller.cancelEcho
  rw [hinit, haec, hp]
  simp only [Bool.true_eq_false, if_false]
  exact cancelFramesGo_passthrough ec f now hF
    (fun idx chunk hlen =>
      processMicFrame_exhausted ec f chunk (now idx) t0 ht hlen
        (hexh idx).1 (hexh idx).2)
    mic.length 0 mic (le_refl _)

/-- A tiny AEC configuration (1 Hz, 2-sample frames, no delay) for
concrete evaluation. -/
def cfgTiny : AecConfig :=
  { sampleRate := 1, frameSize := 2, filterLengthMs := 0,
    enablePreprocess := true, bufferDurationMs := 0,
    speakerToMicDelayMs := 0 }

/-- A reference buffer whose playback timing is running but into which
nothing was registered (`total_written = 0`): any nonnegative target is
exhausted. -/
def rbExhausted : ReferenceBuffer :=
  { samples := fun _ => 0, maxSamples := 4, sampleRate := 1,
    writePos := 0, totalWritten := 0, playbackStartTime := some 0,
    playbackStartSample := 0, pendingStartSample := 0 }

/-- A stand-in engine that would zero out every frame it is given —
so any pass-through in the witness is due to the exhaustion path, not
the engine. -/
def engineZero : AecEngine := fun m _ => some (List.replicate m.length 0)

/-- An initialized canceller over `rbExhausted`. -/
def ecExhausted : EchoCanceller :=
  { config := cfgTiny, aec := some engineZero,
    referenceBuffer := rbExhausted, initialized := true }

/-- Witness for C6: with timing active at `t0 = 0` and clock reading 1,
the target (1 sample) is past `total_written = 0`, so a concrete mic
buffer passes through even though the engine would have zeroed it. -/
theorem cancelEcho_exhausted_passthrough_witness :
    ecExhausted.initialized = true ∧
    ecExhausted.referenceBuffer.playbackStartTime = some 0 ∧
    ecExhausted.cancelEcho [7, -2, 5] (fun _ => 1) = [7, -2, 5] := by
  refine ⟨rfl, rfl, ?_⟩
  exact cancelEcho_exhausted_passthrough ecExhausted engineZero
    [7, -2, 5] (fun _ => 1) 0 rfl rfl rfl (by norm_num [ecExhausted, cfgTiny])
    (fun i => ⟨by norm_num [pyInt, ecExhausted, rbExhausted, cfgTiny,
        AecConfig.delaySamples],
      by norm_num [ecExhausted, rbExhausted]⟩)

/-! ## Supporting lemmas: reference ring-buffer wrap-around -/

/-- A logical position `j` strictly before the current write boundary
but within the last `cap` positions is never aliased (mod `cap`) by any
of the `n ≤ cap` positions written next. -/
theorem mod_window_ne (cap len n j t : ℕ) (hpos : 0 < cap) (hn : n ≤ cap)
    (hj1 : len + n ≤ j + cap) (hj2 : j < len) (ht : t < n) :
    (len + t) % cap ≠ j % cap := by
  intro h
  have hle : j ≤ len + t := by omega
  have hdvd : cap ∣ (len + t - j) := (Nat.modEq_iff_dvd' hle).mp h.symm
  have hgt : 0 < len + t - j := by omega
  have hcle : cap ≤ len + t - j := Nat.le_of_dvd hgt hdvd
  omega

/-- `write` places sample `t` of its input at ring index
`(write_pos + t) % capacity`. -/
theorem write_samples_written (b : ReferenceBuffer) (xs : List ℤ) (t : ℕ)
    (hwp : b.writePos < b.maxSamples) (hxs : xs.length ≤ b.maxSamples)
    (ht : t < xs.length) :
    (b.write xs).samples ((b.writePos + t) % b.maxSamples) =
      xs.getD t 0 := by
  unfold ReferenceBuffer.write
  dsimp only
  by_cases hsp : xs.length ≤ b.maxSamples - b.writePos
  · rw [Nat.mod_eq_of_lt (by omega), if_pos hsp,
      if_pos ⟨Nat.le_add_right _ _, by omega⟩]
    congr 1
    omega
  · rw [if_neg hsp]
    by_cases h2 : t < b.maxSamples - b.writePos
    · rw [Nat.mod_eq_of_lt (by omega), if_pos ⟨Nat.le_add_right _ _,
        by omega⟩]
      congr 1
      omega
    · have hge : b.maxSamples ≤ b.writePos + t := by omega
      have hmod : (b.writePos + t) % b.maxSamples =
          b.writePos + t - b.maxSamples := by
        rw [Nat.mod_eq_sub_mod hge, Nat.mod_eq_of_lt (by omega)]
      rw [hmod, if_neg (by omega), if_pos (by omega)]
      congr 1
      omega

/-- A ring index below capacity that is aliased by none of the written
positions keeps its previous sample after `write`. -/
theorem write_samples_untouched (b : ReferenceBuffer) (xs : List ℤ)
    (i : ℕ) (hwp : b.writePos < b.maxSamples)
    (hxs : xs.length ≤ b.maxSamples) (hi : i < b.maxSamples)
    (hnot : ∀ t, t < xs.length →
      (b.writePos + t) % b.maxSamples ≠ i) :
    (b.write xs).samples i = b.samples i := by
  unfold ReferenceBuffer.write
  dsimp only
  by_cases hsp : xs.length ≤ b.maxSamples - b.writePos
  · rw [if_pos hsp, if_neg ?_]
    rintro ⟨ha, hb⟩
    exact hnot (i - b.writePos) (by omega)
      (by rw [show b.writePos + (i - b.writePos) = i by omega,
        Nat.mod_eq_of_lt hi])
  · rw [if_neg hsp, if_neg ?_, if_neg ?_]
    · intro hc
      exact hnot ((b.maxSamples - b.writePos) + i) (by omega)
        (by rw [show b.writePos + ((b.maxSamples - b.writePos) + i) =
            b.maxSamples + i by omega,
          Nat.add_mod_left, Nat.mod_eq_of_lt hi])
    · rintro ⟨ha, hb⟩
      exact hnot (i - b.writePos) (by omega)
        (by rw [show b.writePos + (i - b.writePos) = i by omega,
          Nat.mod_eq_of_lt hi])

/-- The ring invariant tying a reference buffer to the full history `h`
of samples registered since the last `begin_playback_registration`: the
ring holds the last `cap` history samples at their logical positions
modulo `cap`. -/
def RingInv (b : ReferenceBuffer) (cap : ℕ) (h : List ℤ) : Prop :=
  b.maxSamples = cap ∧ b.totalWritten = h.length ∧
  b.writePos = h.length % cap ∧
  ∀ j, h.length - cap ≤ j → j < h.length →
    b.samples (j % cap) = h.getD j 0

/-- One `write` of at most `capacity` samples extends the ring
invariant by the written block. -/
theorem write_ring_step (b : ReferenceBuffer) (cap : ℕ) (h xs : List ℤ)
    (hpos : 0 < cap) (hxs : xs.length ≤ cap) (hinv : RingInv b cap h) :
    RingInv (b.write xs) cap (h ++ xs) := by
  obtain ⟨hcap, htot, hwp, hsam⟩ := hinv
  subst hcap
  have hwplt : b.writePos < b.maxSamples := by
    rw [hwp]
    exact Nat.mod_lt _ hpos
  have hxs' : xs.length ≤ b.maxSamples := hxs
  refine ⟨rfl, ?_, ?_, ?_⟩
  · show b.totalWritten + xs.length = (h ++ xs).length
    rw [htot, List.length_append]
  · show (b.writePos + xs.length) % b.maxSamples =
      (h ++ xs).length % b.maxSamples
    rw [hwp, Nat.mod_add_mod, List.length_append]
  · intro j hj1 hj2
    rw [List.length_append] at hj1 hj2
    by_cases hold : j < h.length
    · have huntouched : (b.write xs).samples (j % b.maxSamples) =
          b.samples (j % b.maxSamples) := by
        refine write_samples_untouched b xs (j % b.maxSamples) hwplt hxs'
          (Nat.mod_lt _ (by omega)) ?_
        intro t ht heq
        have hmt : (h.length + t) % b.maxSamples = j % b.maxSamples := by
          rw [← heq, hwp, Nat.mod_add_mod]
        exact mod_window_ne b.maxSamples h.length xs.length j t
          (by omega) hxs' (by omega) hold ht hmt
      rw [huntouched, hsam j (by omega) hold,
        List.getD_append _ _ _ _ hold]
    · have hjge : h.length ≤ j := by omega
      have hmod : j % b.maxSamples =
          (b.writePos + (j - h.length)) % b.maxSamples := by
        rw [hwp, Nat.mod_add_mod, show h.length + (j - h.length) = j
          by omega]
      rw [hmod,
        write_samples_written b xs (j - h.length) hwplt hxs' (by omega),
        List.getD_append_right _ _ _ _ hjge]

/-- Folding a list of bounded writes preserves the ring invariant,
extending the history by the concatenation of the writes. -/
theorem writesFold_ring (cap : ℕ) (hpos : 0 < cap) (ws : List (List ℤ)) :
    ∀ (b : ReferenceBuffer) (h : List ℤ),
      (∀ w ∈ ws, w.length ≤ cap) → RingInv b cap h →
      RingInv (b.writesFold ws) cap (h ++ ws.join) := by
  induction ws with
  | nil =>
    intro b h _ hinv
    simpa [ReferenceBuffer.writesFold] using hinv
  | cons w ws ih =>
    intro b h hws hinv
    have hstep := write_ring_step b cap h w hpos
      (hws w (List.mem_cons_self w ws)) hinv
    have := ih (b.write w) (h ++ w)
      (fun x hx => hws x (List.mem_cons_of_mem w hx)) hstep
    simpa [ReferenceBuffer.writesFold, List.append_assoc] using this

/-- C9: after a fresh registration start, for any sequence of writes
each no larger than the capacity and totalling at least the capacity,
the ring holds exactly the last `capacity` samples written, in order, at
their logical positions modulo the capacity; `total_written` counts all
samples. -/
theorem ring_buffer_holds_last_capacity (b0 : ReferenceBuffer)
    (cap k : ℕ) (ws : List (List ℤ))
    (hcap : b0.maxSamples = cap) (hpos : 0 < cap)
    (hws : ∀ w ∈ ws, w.length ≤ cap)
    (htot : ws.join.length = cap + k) :
    (b0.beginPlaybackRegistration.writesFold ws).totalWritten = cap + k ∧
    ∀ j, ws.join.length - cap ≤ j → j < ws.join.length →
      (b0.beginPlaybackRegistration.writesFold ws).samples (j % cap) =
        ws.join.getD j 0 := by
  have hinv0 : RingInv b0.beginPlaybackRegistration cap [] := by
    refine ⟨hcap, rfl, ?_, ?_⟩
    · show 0 = 0 % cap
      simp
    · intro j _ hj
      simp at hj
  have hall := writesFold_ring cap hpos ws b0.beginPlaybackRegistration
    [] hws hinv0
  rw [List.nil_append] at hall
  obtain ⟨_, htotw, _, hsam⟩ := hall
  exact ⟨by rw [htotw, htot], hsam⟩

/-- A tiny reference buffer (capacity 2) for the C9 witness. -/
def rbTiny : ReferenceBuffer := ReferenceBuffer.init 2 1

/-- Witness for C9: writing `[1, 2]` then `[3]` into a capacity-2 ring
(3 = capacity + 1 samples) leaves the last two samples addressable at
their logical positions mod 2; checked here at position `j = 2`. -/
theorem ring_buffer_holds_last_capacity_witness :
    (∀ w ∈ ([[1, 2], [3]] : List (List ℤ)), w.length ≤ 2) ∧
    (([[1, 2], [3]] : List (List ℤ)).join.length = 2 + 1) ∧
    (rbTiny.beginPlaybackRegistration.writesFold
      [[1, 2], [3]]).samples (2 % 2) =
      ([[1, 2], [3]] : List (List ℤ)).join.getD 2 0 := by
  refine ⟨by decide, by decide, ?_⟩
  exact (ring_buffer_holds_last_capacity rbTiny 2 1 [[1, 2], [3]] rfl
    (by omega) (by decide) (by decide)).2 2 (by decide) (by decide)
